import Mathlib

/-!
Verification of the shapefile2db geometry-decomposition and export pipeline.

The Lean definitions below are a shallow embedding of the Python sources:

* `shapefile2db/shape_file_exporter.py` — `ShapeFileToDB`
  (`minimize_poly`, `export_shapedf_to_db`, `export`,
  `get_df_from_shapefile`, `_get_time_remaining`),
* `shapefile2db/state_shape_file_exporter.py` — `StateShapeFileToDB.filter_df`,
* `shapefile2db/address_db/address_database.py` — `AddressDatabase`
  (`add_zip`, `add_zcta`, `add_all_zcta_points`, `add_zcta_boundary`).

Coordinates are modelled as rationals; Python `round(x, d)` is modelled as
rounding `x * 10^d` to the nearest integer and dividing back.  The external
relational store is modelled as in-memory lists of records, with the
per-call transactional behaviour (commit on success, rollback leaving the
store unchanged on failure) driven by explicit failure oracles.  The
external `shapely.simplify` collaborator is an abstract parameter, and the
unbounded tolerance-search loop of `minimize_poly` is given explicit fuel:
a `none` result stands for non-termination of the Python loop.
-/

namespace Shapefile2DB

/-- A shapefile coordinate pair, `(x, y) = (longitude, latitude)`. -/
abbrev Pt := ℚ × ℚ

/-- Python `round(x, d)`: round to `d` decimal digits. -/
def roundTo (d : ℕ) (x : ℚ) : ℚ := (round (x * 10 ^ d) : ℚ) / 10 ^ d

/-- Rounding both components of a coordinate pair to `d` decimal digits. -/
def roundPt (d : ℕ) (p : Pt) : Pt := (roundTo d p.1, roundTo d p.2)

/-- A shapely polygon: an exterior coordinate ring and a list of interior
rings (holes).  `poly.exterior.coords` is `exterior`, `poly.interiors`
gives the interior rings. -/
structure Poly where
  exterior : List Pt
  interiors : List (List Pt)
deriving DecidableEq

/-- A feature geometry: either a single `Polygon` or a `MultiPolygon`
(`shapely.geometry.MultiPolygon`) holding a list of polygon parts. -/
inductive Geometry
  | polygon (p : Poly)
  | multiPolygon (ps : List Poly)
deriving DecidableEq

/-- The list of polygon parts processed by `export_shapedf_to_db`:
`list(zip_geometry.geoms) if isinstance(zip_geometry, MultiPolygon)
else [zip_geometry]`. -/
def Geometry.parts : Geometry → List Poly
  | .polygon p => [p]
  | .multiPolygon ps => ps

/-- `isinstance(zip_geometry, shapely.geometry.MultiPolygon)`. -/
def Geometry.isMulti : Geometry → Bool
  | .polygon _ => false
  | .multiPolygon _ => true

/-! ## `ShapeFileToDB.minimize_poly`

```python
def minimize_poly(self, poly, point_max):
    tolerance = 0
    cord_list = list(poly.exterior.coords)
    while len(cord_list) > point_max:
        poly = simplify(poly, tolerance=tolerance, preserve_topology=True)
        cord_list = list(poly.exterior.coords)
        tolerance = tolerance + 0.0001
    return poly
```

`simplifyFn` stands for the external `shapely.simplify` collaborator.
The `while` loop has no iteration cap, so it is run on explicit fuel;
`none` models an execution that has not terminated within the fuel. -/

/-- The tolerance-search loop of `minimize_poly`, with explicit fuel. -/
def minimizePolyAux (simplifyFn : Poly → ℚ → Poly) (point_max : ℕ) :
    ℕ → Poly → ℚ → Option Poly
  | 0, poly, _ =>
      if poly.exterior.length ≤ point_max then some poly else none
  | fuel + 1, poly, tolerance =>
      if poly.exterior.length ≤ point_max then some poly
      else minimizePolyAux simplifyFn point_max fuel
        (simplifyFn poly tolerance) (tolerance + 1 / 10000)

/-- `ShapeFileToDB.minimize_poly(poly, point_max)`; the tolerance starts
at `0` and grows by `0.0001` per iteration. -/
def minimize_poly (simplifyFn : Poly → ℚ → Poly) (fuel : ℕ)
    (poly : Poly) (point_max : ℕ) : Option Poly :=
  minimizePolyAux simplifyFn point_max fuel poly 0

/-! ## `ShapeFileToDB._get_time_remaining`

```python
if rows_done == 0:
    return "00:00:00"
rows_left = total_rows - rows_done
elapsed_seconds = (datetime.now() - start_time).total_seconds()
time_left = (rows_left / rows_done) * elapsed_seconds
hours = int(time_left // 3600)
minutes = int((time_left % 3600) // 60)
seconds = int(time_left % 60)
return f"{hours:02d}:{minutes:02d}:{seconds:02d}"
```

Elapsed wall time is passed in as a rational number of seconds. -/

/-- Python `f"{n:02d}"`: decimal rendering zero-padded to width two. -/
def padZero2 (n : ℤ) : String :=
  if 0 ≤ n ∧ n < 10 then "0" ++ toString n else toString n

/-- Python float modulo `x % m`: `x - m * (x // m)`, which for `m > 0`
always lies in `[0, m)`. -/
def fmod (x m : ℚ) : ℚ := x - m * ⌊x / m⌋

/-- `ShapeFileToDB._get_time_remaining(rows_done, total_rows, start_time)`,
with `elapsed_seconds` the elapsed wall time in seconds.  `//` is Python
floor division and `int` truncates toward zero (the `% 3600` and `% 60`
remainders are nonnegative, so truncation and floor agree there). -/
def get_time_remaining (rows_done total_rows : ℕ) (elapsed_seconds : ℚ) :
    String :=
  if rows_done = 0 then "00:00:00"
  else
    let time_left : ℚ :=
      ((total_rows : ℚ) - (rows_done : ℚ)) / (rows_done : ℚ) * elapsed_seconds
    let hours : ℤ := ⌊time_left / 3600⌋
    let minutes : ℤ := ⌊fmod time_left 3600 / 60⌋
    let seconds : ℤ := ⌊fmod time_left 60⌋
    padZero2 hours ++ ":" ++ padZero2 minutes ++ ":" ++ padZero2 seconds

/-- Rendering of a nonnegative duration `t` in seconds as zero-padded
`HH:MM:SS` with integer truncation, as the specification describes it:
truncate `t` to a whole number of seconds, then split off hours,
minutes and seconds. -/
def renderHMS (t : ℚ) : String :=
  let n : ℕ := ⌊t⌋.toNat
  padZero2 (n / 3600 : ℕ) ++ ":" ++ padZero2 ((n % 3600) / 60 : ℕ) ++ ":" ++
    padZero2 (n % 60 : ℕ)

/-! ## `StateShapeFileToDB.filter_df`

```python
filter_list = []
for zip_range in self.zip_ranges_list:
    low_zip_filter = df[self.ZIP_FIELD] >= zip_range[0]
    high_zip_filter = df[self.ZIP_FIELD] <= zip_range[1]
    filter_list.append(low_zip_filter & high_zip_filter)
combined_filter = reduce(lambda x, y: x | y, filter_list)
filtered_df = df[combined_filter]
df_sorted = filtered_df.sort_values(by=sort_column)
```

ZIP codes are compared as Python strings: lexicographically on code
points.  The `reduce` over per-range conjunctions equals a disjunction
over the (always nonempty, per `STATE_ZIP_RANGES`) range list. -/

/-- Python string comparison `a <= b`: lexicographic on code points. -/
def charListLe : List Char → List Char → Bool
  | [], _ => true
  | _ :: _, [] => false
  | c :: cs, d :: ds =>
      if c.toNat < d.toNat then true
      else if c.toNat = d.toNat then charListLe cs ds
      else false

/-- Python `a <= b` on strings. -/
def pyStrLe (a b : String) : Bool := charListLe a.data b.data

/-- One source feature row of the GeoDataFrame: ZIP code string
(`ZCTA5CE20`), interior-point latitude and longitude (`INTPTLAT20`,
`INTPTLON20`) and the polygon or multipolygon geometry. -/
structure Feature where
  zip_code : String
  intpt_lat : ℚ
  intpt_lon : ℚ
  geometry : Geometry
deriving DecidableEq

/-- The per-row filter: the reduce-by-or of the per-range band filters
`low <= zip and zip <= high`. -/
def zipInRanges (zip_ranges_list : List (String × String)) (z : String) :
    Bool :=
  zip_ranges_list.any fun zip_range =>
    pyStrLe zip_range.1 z && pyStrLe z zip_range.2

/-- `StateShapeFileToDB.filter_df`: keep the rows passing the combined
range filter, then sort ascending by the ZIP code field. -/
def StateShapeFileToDB.filter_df (zip_ranges_list : List (String × String))
    (df : List Feature) : List Feature :=
  (df.filter fun r => zipInRanges zip_ranges_list r.zip_code).mergeSort
    fun a b => pyStrLe a.zip_code b.zip_code

/-! ## The relational store and `AddressDatabase`

Each `add_*` method of `AddressDatabase` opens its own session, commits on
success and, on any exception, prints, rolls the session back — leaving
the store unchanged — and returns `None` / `False`; no exception
propagates to the caller.  Records are modelled with the model columns of
`address_models.py`; primary keys are assigned by successive counters. -/

/-- A `zip_codes` row (`ZipCode`). -/
structure ZipRec where
  zip_code_id : ℕ
  zip_code : String
  zip_lat : ℚ
  zip_lon : ℚ
deriving DecidableEq

/-- A `zctas` row (`ZCTA`). -/
structure ZctaRec where
  zcta_id : ℕ
  zip_code_id : ℕ
  interior : Bool
  multi : Bool
deriving DecidableEq

/-- A `zcta_points` row (`ZCTAPoint`). -/
structure PointRec where
  zcta_id : ℕ
  zcta_point_lat : ℚ
  zcta_point_lon : ℚ
deriving DecidableEq

/-- A `zcta_boundaries` row (`ZCTABoundary`). -/
structure BoxRec where
  zcta_id : ℕ
  min_lat : ℚ
  max_lat : ℚ
  min_lon : ℚ
  max_lon : ℚ
deriving DecidableEq

/-- The SQLite store: the four tables and the next primary keys. -/
structure Store where
  zips : List ZipRec
  zctas : List ZctaRec
  points : List PointRec
  boxes : List BoxRec
  nextZipId : ℕ
  nextZctaId : ℕ
deriving DecidableEq

/-- A fresh database. -/
def Store.empty : Store := ⟨[], [], [], [], 0, 0⟩

/-! ### `AddressDatabase.add_all_zcta_points`

```python
session = None
try:
    Session = sessionmaker(bind=self.engine)
    with Session() as session:
        for lon, lat in zcta_points:
            new_point = ZCTAPoint(zcta_id=zcta_id, zcta_point_lat=lat,
                                  zcta_point_lon=lon)
            session.add(new_point)
        session.commit()
        return True
except ...:
    print_red(...)
if session:
    session.rollback()
return False
```

The session stages records and applies them to the store only at
`commit`.  `failAt = some k` makes the `k`-th `session.add` raise
(`k < len(zcta_points)`) or the final `commit` raise
(`k = len(zcta_points)`); `none` is a fault-free run. -/

/-- A SQLAlchemy session holding staged, not yet committed, point rows. -/
structure DbSession where
  staged : List PointRec
deriving DecidableEq

/-- The `for lon, lat in zcta_points` staging loop; an `error` result is a
raised exception carrying the session at that instant. -/
def addLoop (failAt : Option ℕ) (zcta_id : ℕ) :
    List Pt → ℕ → DbSession → Except DbSession DbSession
  | [], _, session => .ok session
  | (lon, lat) :: rest, k, session =>
      if failAt = some k then .error session
      else addLoop failAt zcta_id rest (k + 1)
        ⟨session.staged ++ [⟨zcta_id, lat, lon⟩]⟩

/-- `AddressDatabase.add_all_zcta_points(zcta_id, zcta_points)` on store
`db`: returns the store after the call and the method's return value. -/
def add_all_zcta_points (failAt : Option ℕ) (zcta_id : ℕ)
    (zcta_points : List Pt) (db : Store) : Store × Bool :=
  match addLoop failAt zcta_id zcta_points 0 ⟨[]⟩ with
  | .ok session =>
      if failAt = some zcta_points.length then (db, false)
      else ({ db with points := db.points ++ session.staged }, true)
  | .error _ => (db, false)

/-! ## `ShapeFileToDB.export_shapedf_to_db`

The per-row export loop (lines 552–612).  A run-level failure oracle
tells, for each database write call in sequence, whether it succeeds;
a failed call leaves the store unchanged (the method rolled back) and
returns `None`/`False` to the export loop. -/

/-- `orac n` is the outcome of the `n`-th database write of the run. -/
abbrev Oracle := ℕ → Bool

/-- The always-succeeding oracle: a fault-free database. -/
def oracAll : Oracle := fun _ => true

/-- Export-loop state: the store plus the running write-call counter. -/
structure ExpSt where
  store : Store
  calls : ℕ
deriving DecidableEq

/-- `AddressDatabase.add_zip`: on success commit one `ZipCode` row and
return it (`None` on failure, store unchanged). -/
def addZipOp (orac : Oracle) (zip_code : String) (zip_lat zip_lon : ℚ)
    (st : ExpSt) : Option ℕ × ExpSt :=
  if orac st.calls then
    (some st.store.nextZipId,
      ⟨{ st.store with
          zips := st.store.zips ++
            [⟨st.store.nextZipId, zip_code, zip_lat, zip_lon⟩],
          nextZipId := st.store.nextZipId + 1 }, st.calls + 1⟩)
  else (none, ⟨st.store, st.calls + 1⟩)

/-- `AddressDatabase.add_zcta`: on success commit one `ZCTA` row and
return it (`None` on failure, store unchanged). -/
def addZctaOp (orac : Oracle) (zip_code_id : ℕ) (interior multi : Bool)
    (st : ExpSt) : Option ℕ × ExpSt :=
  if orac st.calls then
    (some st.store.nextZctaId,
      ⟨{ st.store with
          zctas := st.store.zctas ++
            [⟨st.store.nextZctaId, zip_code_id, interior, multi⟩],
          nextZctaId := st.store.nextZctaId + 1 }, st.calls + 1⟩)
  else (none, ⟨st.store, st.calls + 1⟩)

/-- `AddressDatabase.add_all_zcta_points` as seen by the export loop: an
atomic append of one `ZCTAPoint` row per `(lon, lat)` tuple, or no change
at all (the per-call transaction of `add_all_zcta_points` above). -/
def addAllZctaPointsOp (orac : Oracle) (zcta_id : ℕ) (zcta_points : List Pt)
    (st : ExpSt) : ExpSt :=
  if orac st.calls then
    ⟨{ st.store with
        points := st.store.points ++
          zcta_points.map fun p => ⟨zcta_id, p.2, p.1⟩ }, st.calls + 1⟩
  else ⟨st.store, st.calls + 1⟩

/-- `AddressDatabase.add_zcta_boundary`: commit one `ZCTABoundary` row or
leave the store unchanged.  The export loop ignores its return value. -/
def addZctaBoundaryOp (orac : Oracle) (box : BoxRec) (st : ExpSt) : ExpSt :=
  if orac st.calls then
    ⟨{ st.store with boxes := st.store.boxes ++ [box] }, st.calls + 1⟩
  else ⟨st.store, st.calls + 1⟩

/-- Lines 588–593 and 604–609: `lats, lons = zip(*cord_list)` on a
nonempty `c :: cs` followed by `min`/`max` of each tuple.  NOTE the
unpacking binds the FIRST tuple components — the longitudes — to the
`lats` variable, so the `min_lat`/`max_lat` columns receive longitude
extrema and `min_lon`/`max_lon` latitude extrema. -/
def mkBox (zcta_id : ℕ) (c : Pt) (cs : List Pt) : BoxRec :=
  ⟨zcta_id,
    (cs.map Prod.fst).foldl min c.1, (cs.map Prod.fst).foldl max c.1,
    (cs.map Prod.snd).foldl min c.2, (cs.map Prod.snd).foldl max c.2⟩

/-- Lines 596–609, the `for interior_ring in poly.interiors` loop: per
hole, create an interior `ZCTA`, persist the hole's rounded points under
that interior record's id (note the `self.digit_max` attribute, not the
`digit_max` argument, is used to round here), then persist the hole's
bounding box under `zcta_obj.zcta_id` — the EXTERIOR record's id.  An
`Except.error` carries the state at a raised exception: a failed
`add_zcta` returns `None`, so `zcta_int_obj.zcta_id` raises
`AttributeError`; an empty ring makes `zip(*...)` unpacking raise. -/
def processInteriors (orac : Oracle) (self_digit_max : ℕ)
    (zip_code_id : ℕ) (multi : Bool) (ext_zcta_id : ℕ) :
    List (List Pt) → ExpSt → Except ExpSt ExpSt
  | [], st => .ok st
  | interior_ring :: rest, st =>
      match addZctaOp orac zip_code_id true multi st with
      | (none, st) => .error st
      | (some int_zcta_id, st) =>
          let interior_coord_list :=
            interior_ring.map (roundPt self_digit_max)
          let st := addAllZctaPointsOp orac int_zcta_id
            interior_coord_list st
          match interior_coord_list with
          | [] => .error st
          | c :: cs =>
              let st := addZctaBoundaryOp orac (mkBox ext_zcta_id c cs) st
              processInteriors orac self_digit_max zip_code_id multi
                ext_zcta_id rest st

/-- Lines 572–609, one iteration of the `for poly in polygons` loop:
shrink the part with `minimize_poly`, create the exterior `ZCTA`, persist
the rounded exterior ring and its bounding box under it, then process the
holes.  `none` models `minimize_poly` never terminating. -/
def processPart (orac : Oracle) (digit_max self_digit_max : ℕ)
    (simplifyFn : Poly → ℚ → Poly) (fuel point_max : ℕ)
    (zip_code_id : ℕ) (multi : Bool) (poly : Poly) (st : ExpSt) :
    Option (Except ExpSt ExpSt) :=
  match minimize_poly simplifyFn fuel poly point_max with
  | none => none
  | some poly =>
      match addZctaOp orac zip_code_id false multi st with
      | (none, st) => some (.error st)
      | (some ext_zcta_id, st) =>
          let ext_cord_list := poly.exterior.map (roundPt digit_max)
          let st := addAllZctaPointsOp orac ext_zcta_id ext_cord_list st
          match ext_cord_list with
          | [] => some (.error st)
          | c :: cs =>
              let st := addZctaBoundaryOp orac (mkBox ext_zcta_id c cs) st
              some (processInteriors orac self_digit_max zip_code_id multi
                ext_zcta_id poly.interiors st)

/-- The whole `for poly in polygons` loop.  The loop body sits inside one
`try` per feature, so a raised exception ABORTS the loop: the remaining
parts of the feature are not processed (writes already committed stay). -/
def processParts (orac : Oracle) (digit_max self_digit_max : ℕ)
    (simplifyFn : Poly → ℚ → Poly) (fuel point_max : ℕ)
    (zip_code_id : ℕ) (multi : Bool) :
    List Poly → ExpSt → Option (Except ExpSt ExpSt)
  | [], st => some (.ok st)
  | poly :: rest, st =>
      match processPart orac digit_max self_digit_max simplifyFn fuel
        point_max zip_code_id multi poly st with
      | none => none
      | some (.error st) => some (.error st)
      | some (.ok st) =>
          processParts orac digit_max self_digit_max simplifyFn fuel
            point_max zip_code_id multi rest st

/-- Lines 552–612, the body of the per-row loop: round and persist the
ZIP centroid; if that failed (`zip_obj is None`) skip the geometry
entirely; otherwise decompose the geometry, with any exception of the
parts loop caught (`except Exception`), logged and swallowed. -/
def exportFeature (orac : Oracle) (digit_max self_digit_max : ℕ)
    (simplifyFn : Poly → ℚ → Poly) (fuel point_max : ℕ)
    (row : Feature) (st : ExpSt) : Option ExpSt :=
  let zip_lat := roundTo digit_max row.intpt_lat
  let zip_lon := roundTo digit_max row.intpt_lon
  match addZipOp orac row.zip_code zip_lat zip_lon st with
  | (none, st) => some st
  | (some zip_code_id, st) =>
      let polygons := row.geometry.parts
      let multi := row.geometry.isMulti
      match processParts orac digit_max self_digit_max simplifyFn fuel
        point_max zip_code_id multi polygons st with
      | none => none
      | some (.ok st) => some st
      | some (.error st) => some st

/-- `ShapeFileToDB.export_shapedf_to_db(zcta_df, digit_max, point_max)`:
iterate the rows and finally `return True` (always). -/
def export_shapedf_to_db (orac : Oracle) (digit_max self_digit_max : ℕ)
    (simplifyFn : Poly → ℚ → Poly) (fuel point_max : ℕ) :
    List Feature → ExpSt → Option (ExpSt × Bool)
  | [], st => some (st, true)
  | row :: rest, st =>
      match exportFeature orac digit_max self_digit_max simplifyFn fuel
        point_max row st with
      | none => none
      | some st =>
          export_shapedf_to_db orac digit_max self_digit_max simplifyFn
            fuel point_max rest st

/-! ## `ShapeFileToDB.get_df_from_shapefile` and `ShapeFileToDB.export` -/

/-- The base-class `filter_df(df, sort_column)`: sort by the ZIP field. -/
def ShapeFileToDB.filter_df (df : List Feature) : List Feature :=
  df.mergeSort fun a b => pyStrLe a.zip_code b.zip_code

/-- What `get_df_from_shapefile` evaluates to: either the Python literal
`False` (`return False` when the accumulated frame is empty) or the
sorted frame. -/
inductive DfResult
  | falseLit
  | df (rows : List Feature)
deriving DecidableEq

/-- `ShapeFileToDB.get_df_from_shapefile`: the chunked read accumulates
`rows`; an empty result returns the literal `False`, otherwise the frame
sorted by ZIP code. -/
def get_df_from_shapefile (rows : List Feature) : DfResult :=
  if rows.isEmpty then .falseLit else .df (ShapeFileToDB.filter_df rows)

/-- The Python exceptions the export entry point can raise. -/
inductive PyError
  | attributeError
deriving DecidableEq

/-- `ShapeFileToDB.export()`:

```python
df = self.get_df_from_shapefile()
if df is not None and not df.empty:
    self.export_shapedf_to_db(zcta_df=df, digit_max=self.digit_max,
                              point_max=self.point_max)
    return True
else:
    print_red("No data to export.")
    return False
```

When `get_df_from_shapefile` returned the literal `False`, the test
`df is not None` succeeds and `df.empty` on a `bool` raises
`AttributeError`, which propagates out of `export`. -/
def ShapeFileToDB.export (orac : Oracle) (digit_max self_digit_max : ℕ)
    (simplifyFn : Poly → ℚ → Poly) (fuel point_max : ℕ)
    (rows : List Feature) : Option (Except PyError Bool) :=
  match get_df_from_shapefile rows with
  | .falseLit => some (.error .attributeError)
  | .df df =>
      if df.isEmpty then some (.ok false)
      else
        match export_shapedf_to_db orac digit_max self_digit_max
          simplifyFn fuel point_max df ⟨Store.empty, 0⟩ with
        | none => none
        | some _ => some (.ok true)

/-- The state an `Except`-valued loop result carries, whether the loop
finished or was aborted by a raised exception. -/
def exceptState : Except ExpSt ExpSt → ExpSt
  | .ok st => st
  | .error st => st

/-- The extrema of box `b` are the minima/maxima over the point list `L`:
each of the four fields both bounds `L` and is attained on `L`.  The
`min_lat`/`max_lat` fields hold the extrema of the FIRST (longitude)
components exactly as the code computes them, and `min_lon`/`max_lon`
those of the second (latitude) components. -/
def IsBoxOf (b : BoxRec) (L : List Pt) : Prop :=
  (∀ p ∈ L, b.min_lat ≤ p.1 ∧ p.1 ≤ b.max_lat ∧
    b.min_lon ≤ p.2 ∧ p.2 ≤ b.max_lon) ∧
  b.min_lat ∈ L.map Prod.fst ∧ b.max_lat ∈ L.map Prod.fst ∧
  b.min_lon ∈ L.map Prod.snd ∧ b.max_lon ∈ L.map Prod.snd

/-! # Theorems -/

theorem minimizePolyAux_length_le (simplifyFn : Poly → ℚ → Poly)
    (point_max : ℕ) :
    ∀ (fuel : ℕ) (poly : Poly) (tolerance : ℚ) (res : Poly),
      minimizePolyAux simplifyFn point_max fuel poly tolerance = some res →
      res.exterior.length ≤ point_max := by
  intro fuel
  induction fuel with
  | zero =>
      intro poly tolerance res h
      by_cases hle : poly.exterior.length ≤ point_max
      · simp only [minimizePolyAux, if_pos hle, Option.some.injEq] at h
        exact h ▸ hle
      · simp [minimizePolyAux, if_neg hle] at h
  | succ fuel ih =>
      intro poly tolerance res h
      by_cases hle : poly.exterior.length ≤ point_max
      · simp only [minimizePolyAux, if_pos hle, Option.some.injEq] at h
        exact h ▸ hle
      · simp only [minimizePolyAux, if_neg hle] at h
        exact ih _ _ _ h

/-- C1: for every polygon and positive `point_max`, whenever
`minimize_poly` terminates (for any behaviour of the external `simplify`
and any amount of fuel), the returned polygon's exterior coordinate
sequence has length at most `point_max`. -/
theorem minimize_poly_exterior_le_point_max
    (simplifyFn : Poly → ℚ → Poly) (fuel : ℕ) (poly : Poly)
    (point_max : ℕ) (res : Poly) (_hpos : 0 < point_max)
    (hterm : minimize_poly simplifyFn fuel poly point_max = some res) :
    res.exterior.length ≤ point_max :=
  minimizePolyAux_length_le simplifyFn point_max fuel poly 0 res hterm

/-- Witness for C1: a triangle ring of four coordinates against
`point_max = 100`. -/
theorem minimize_poly_exterior_le_point_max_witness :
    0 < 100 ∧
      (minimize_poly (fun p _ => p) 0
          ⟨[(0, 0), (1, 0), (0, 1), (0, 0)], []⟩ 100 =
        some ⟨[(0, 0), (1, 0), (0, 1), (0, 0)], []⟩) ∧
      (Poly.mk [((0 : ℚ), (0 : ℚ)), (1, 0), (0, 1), (0, 0)]
          []).exterior.length ≤ 100 :=
  ⟨by norm_num,
   by simp [minimize_poly, minimizePolyAux],
   minimize_poly_exterior_le_point_max (fun p _ => p) 0
     ⟨[(0, 0), (1, 0), (0, 1), (0, 0)], []⟩ 100
     ⟨[(0, 0), (1, 0), (0, 1), (0, 0)], []⟩ (by norm_num)
     (by simp [minimize_poly, minimizePolyAux])⟩

/-- C10: a polygon whose exterior already has at most `point_max`
coordinates is returned unchanged: the `while` condition is false on
entry, so no simplification is applied at any tolerance. -/
theorem minimize_poly_id_of_le
    (simplifyFn : Poly → ℚ → Poly) (fuel : ℕ) (poly : Poly)
    (point_max : ℕ) (hle : poly.exterior.length ≤ point_max) :
    minimize_poly simplifyFn fuel poly point_max = some poly := by
  cases fuel with
  | zero => simp [minimize_poly, minimizePolyAux, if_pos hle]
  | succ fuel => simp [minimize_poly, minimizePolyAux, if_pos hle]

/-- Witness for C10: a square ring of five coordinates is returned
unchanged for `point_max = 5`, even with fuel available and a
`simplifyFn` that would erase the polygon. -/
theorem minimize_poly_id_of_le_witness :
    (Poly.mk [((0 : ℚ), (0 : ℚ)), (1, 0), (1, 1), (0, 1), (0, 0)]
        []).exterior.length ≤ 5 ∧
      minimize_poly (fun _ _ => ⟨[], []⟩) 7
          ⟨[(0, 0), (1, 0), (1, 1), (0, 1), (0, 0)], []⟩ 5 =
        some ⟨[(0, 0), (1, 0), (1, 1), (0, 1), (0, 0)], []⟩ :=
  ⟨by norm_num,
   minimize_poly_id_of_le (fun _ _ => ⟨[], []⟩) 7
     ⟨[(0, 0), (1, 0), (1, 1), (0, 1), (0, 0)], []⟩ 5 (by norm_num)⟩

theorem floor_div_natCast_of_nonneg (t : ℚ) (ht : 0 ≤ t) (m : ℕ) :
    ⌊t / (m : ℚ)⌋ = ((⌊t⌋₊ / m : ℕ) : ℤ) := by
  have h0 : (0 : ℚ) ≤ t / (m : ℚ) := div_nonneg ht (by positivity)
  rw [← Int.natCast_floor_eq_floor h0, Nat.floor_div_nat]

theorem fmod_nonneg_of_pos (x : ℚ) {m : ℚ} (hm : 0 < m) : 0 ≤ fmod x m := by
  have := Int.sub_floor_div_mul_nonneg x hm
  unfold fmod
  linarith [this]

theorem floor_fmod_natCast_of_nonneg (t : ℚ) (ht : 0 ≤ t) (m : ℕ)
    (hm : 0 < m) : ⌊fmod t (m : ℚ)⌋ = ((⌊t⌋₊ % m : ℕ) : ℤ) := by
  have hmq : (0 : ℚ) < (m : ℚ) := by exact_mod_cast hm
  have hfl : ⌊t / (m : ℚ)⌋ = ((⌊t⌋₊ / m : ℕ) : ℤ) :=
    floor_div_natCast_of_nonneg t ht m
  have : fmod t (m : ℚ) = t - (((m * (⌊t⌋₊ / m) : ℕ) : ℤ) : ℚ) := by
    unfold fmod
    rw [hfl]
    push_cast
    ring
  rw [this, Int.floor_sub_int, ← Int.natCast_floor_eq_floor ht]
  have hmd : ((⌊t⌋₊ % m : ℕ) : ℤ) + (m : ℤ) * ((⌊t⌋₊ / m : ℕ) : ℤ) =
      ((⌊t⌋₊ : ℕ) : ℤ) := by
    exact_mod_cast congrArg (Nat.cast (R := ℤ)) (Nat.mod_add_div ⌊t⌋₊ m)
  push_cast at hmd ⊢
  linarith

/-- C8: with `rows_done > 0` (and `rows_done ≤ total_rows`, nonnegative
elapsed time, as at every call site), the estimate is
`(total_rows - rows_done) / rows_done * elapsed_seconds` rendered as
zero-padded `HH:MM:SS` with integer truncation; with `rows_done = 0` it is
`"00:00:00"` instead of dividing by zero. -/
theorem get_time_remaining_spec :
    (∀ (rows_done total_rows : ℕ) (elapsed_seconds : ℚ),
        0 < rows_done → rows_done ≤ total_rows → 0 ≤ elapsed_seconds →
        get_time_remaining rows_done total_rows elapsed_seconds =
          renderHMS (((total_rows : ℚ) - (rows_done : ℚ)) / (rows_done : ℚ) *
            elapsed_seconds)) ∧
      (∀ (total_rows : ℕ) (elapsed_seconds : ℚ),
        get_time_remaining 0 total_rows elapsed_seconds = "00:00:00") := by
  constructor
  · intro rows_done total_rows elapsed_seconds hpos hle helapsed
    have hne : rows_done ≠ 0 := Nat.pos_iff_ne_zero.mp hpos
    set t : ℚ :=
      ((total_rows : ℚ) - (rows_done : ℚ)) / (rows_done : ℚ) * elapsed_seconds
      with ht_def
    have ht : 0 ≤ t := by
      apply mul_nonneg _ helapsed
      apply div_nonneg _ (by positivity)
      have : (rows_done : ℚ) ≤ (total_rows : ℚ) := by exact_mod_cast hle
      linarith
    have h3600 : ⌊t / 3600⌋ = ((⌊t⌋₊ / 3600 : ℕ) : ℤ) := by
      have := floor_div_natCast_of_nonneg t ht 3600
      norm_num at this ⊢
      exact this
    have hmin : ⌊fmod t 3600 / 60⌋ = (((⌊t⌋₊ % 3600) / 60 : ℕ) : ℤ) := by
      have hfm : 0 ≤ fmod t 3600 := fmod_nonneg_of_pos t (by norm_num)
      have h1 := floor_div_natCast_of_nonneg (fmod t 3600) hfm 60
      have h2 : ⌊fmod t (3600 : ℚ)⌋ = ((⌊t⌋₊ % 3600 : ℕ) : ℤ) := by
        have := floor_fmod_natCast_of_nonneg t ht 3600 (by norm_num)
        norm_num at this ⊢
        exact this
      have h3 : ⌊fmod t 3600⌋₊ = ⌊t⌋₊ % 3600 := by
        have := Int.natCast_floor_eq_floor hfm
        omega
      norm_num at h1 ⊢
      rw [h1, h3]
      push_cast
      omega
    have hsec : ⌊fmod t 60⌋ = ((⌊t⌋₊ % 60 : ℕ) : ℤ) := by
      have := floor_fmod_natCast_of_nonneg t ht 60 (by norm_num)
      norm_num at this ⊢
      exact this
    rw [get_time_remaining, if_neg hne, renderHMS]
    simp only [← ht_def, Int.floor_toNat]
    rw [h3600, hmin, hsec]
  · intro total_rows elapsed_seconds
    rw [get_time_remaining, if_pos rfl]

/-- Witness for C8: one row done of three after 1830 seconds predicts
2 · 1830 = 3660 seconds, rendered `"01:01:00"`; and the zero-row call. -/
theorem get_time_remaining_spec_witness :
    get_time_remaining 1 3 1830 = "01:01:00" ∧
      get_time_remaining 0 3 1830 = "00:00:00" := by
  constructor
  · rw [get_time_remaining_spec.1 1 3 1830 (by norm_num) (by norm_num)
      (by norm_num)]
    norm_num [renderHMS, padZero2]
    rfl
  · exact get_time_remaining_spec.2 3 1830

theorem charListLe_total :
    ∀ (a b : List Char), (charListLe a b || charListLe b a) = true := by
  intro a
  induction a with
  | nil => intro b; cases b <;> simp [charListLe]
  | cons a as ih =>
      intro b
      cases b with
      | nil => simp [charListLe]
      | cons b bs =>
          rcases Nat.lt_trichotomy a.toNat b.toNat with h | h | h
          · simp [charListLe, h]
          · simpa [charListLe, h] using ih bs
          · simp [charListLe, h, Nat.lt_asymm h, Ne.symm (Nat.ne_of_lt h)]

theorem charListLe_trans :
    ∀ (a b c : List Char), charListLe a b = true → charListLe b c = true →
      charListLe a c = true := by
  intro a
  induction a with
  | nil => intro b c h1 h2; simp [charListLe]
  | cons a as ih =>
      intro b c h1 h2
      cases b with
      | nil => simp [charListLe] at h1
      | cons b bs =>
          cases c with
          | nil => simp [charListLe] at h2
          | cons c cs =>
              simp only [charListLe] at h1 h2 ⊢
              by_cases hab : a.toNat < b.toNat
              · by_cases hbc : b.toNat < c.toNat
                · rw [if_pos (Nat.lt_trans hab hbc)]
                · rw [if_neg hbc] at h2
                  by_cases hbc' : b.toNat = c.toNat
                  · rw [if_pos (hbc' ▸ hab)]
                  · rw [if_neg hbc'] at h2; exact absurd h2 (by simp)
              · rw [if_neg hab] at h1
                by_cases hab' : a.toNat = b.toNat
                · rw [if_pos hab'] at h1
                  by_cases hbc : b.toNat < c.toNat
                  · rw [if_pos (hab' ▸ hbc)]
                  · rw [if_neg hbc] at h2
                    by_cases hbc' : b.toNat = c.toNat
                    · rw [if_neg (by omega), if_pos (hab'.trans hbc')]
                      rw [if_pos hbc'] at h2
                      exact ih bs cs h1 h2
                    · rw [if_neg hbc'] at h2; exact absurd h2 (by simp)
                · rw [if_neg hab'] at h1; exact absurd h1 (by simp)

/-- C5: a feature survives the state filter iff its ZIP code string lies
in at least one of the state's inclusive `[low, high]` ranges under
string comparison, the result is sorted ascending by ZIP code string,
and for the Alabama range `("35004", "36925")` the ZIP `"36000"` is
retained while `"37000"` is excluded. -/
theorem state_filter_df_spec :
    (∀ (zip_ranges_list : List (String × String)) (df : List Feature)
        (r : Feature),
        r ∈ StateShapeFileToDB.filter_df zip_ranges_list df ↔
          r ∈ df ∧ ∃ zip_range ∈ zip_ranges_list,
            pyStrLe zip_range.1 r.zip_code = true ∧
              pyStrLe r.zip_code zip_range.2 = true) ∧
      (∀ (zip_ranges_list : List (String × String)) (df : List Feature),
        (StateShapeFileToDB.filter_df zip_ranges_list df).Pairwise
          fun a b => pyStrLe a.zip_code b.zip_code = true) ∧
      zipInRanges [("35004", "36925")] "36000" = true ∧
      zipInRanges [("35004", "36925")] "37000" = false := by
  refine ⟨?_, ?_, by decide, by decide⟩
  · intro zip_ranges_list df r
    simp [StateShapeFileToDB.filter_df, List.mem_mergeSort, List.mem_filter,
      zipInRanges, List.any_eq_true, Bool.and_eq_true, and_assoc]
  · intro zip_ranges_list df
    unfold StateShapeFileToDB.filter_df
    exact @List.sorted_mergeSort Feature
      (fun a b => pyStrLe a.zip_code b.zip_code)
      (fun a b c hab hbc => charListLe_trans _ _ _ hab hbc)
      (fun a b => charListLe_total _ _) _

theorem foldl_min_le_init (l : List ℚ) : ∀ (a : ℚ), l.foldl min a ≤ a := by
  induction l with
  | nil => intro a; simp
  | cons x xs ih =>
      intro a
      simp only [List.foldl_cons]
      exact le_trans (ih (min a x)) (min_le_left a x)

theorem foldl_min_le_mem (l : List ℚ) :
    ∀ (a x : ℚ), x ∈ l → l.foldl min a ≤ x := by
  induction l with
  | nil => intro a x hx; simp at hx
  | cons y ys ih =>
      intro a x hx
      simp only [List.foldl_cons]
      rcases List.mem_cons.mp hx with rfl | hx'
      · exact le_trans (foldl_min_le_init ys (min a x)) (min_le_right a x)
      · exact ih (min a y) x hx'

theorem foldl_min_mem (l : List ℚ) :
    ∀ (a : ℚ), l.foldl min a = a ∨ l.foldl min a ∈ l := by
  induction l with
  | nil => intro a; left; rfl
  | cons y ys ih =>
      intro a
      simp only [List.foldl_cons]
      rcases ih (min a y) with h | h
      · rcases le_total a y with hay | hya
        · left; rw [h, min_eq_left hay]
        · right; rw [h, min_eq_right hya]; exact List.mem_cons_self y ys
      · right; exact List.mem_cons_of_mem y h

theorem foldl_max_init_le (l : List ℚ) : ∀ (a : ℚ), a ≤ l.foldl max a := by
  induction l with
  | nil => intro a; simp
  | cons x xs ih =>
      intro a
      simp only [List.foldl_cons]
      exact le_trans (le_max_left a x) (ih (max a x))

theorem foldl_max_mem_le (l : List ℚ) :
    ∀ (a x : ℚ), x ∈ l → x ≤ l.foldl max a := by
  induction l with
  | nil => intro a x hx; simp at hx
  | cons y ys ih =>
      intro a x hx
      simp only [List.foldl_cons]
      rcases List.mem_cons.mp hx with rfl | hx'
      · exact le_trans (le_max_right a x) (foldl_max_init_le ys (max a x))
      · exact ih (max a y) x hx'

theorem foldl_max_mem (l : List ℚ) :
    ∀ (a : ℚ), l.foldl max a = a ∨ l.foldl max a ∈ l := by
  induction l with
  | nil => intro a; left; rfl
  | cons y ys ih =>
      intro a
      simp only [List.foldl_cons]
      rcases ih (max a y) with h | h
      · rcases le_total a y with hay | hya
        · right; rw [h, max_eq_right hay]; exact List.mem_cons_self y ys
        · left; rw [h, max_eq_left hya]
      · right; exact List.mem_cons_of_mem y h

theorem mkBox_isBoxOf (zcta_id : ℕ) (c : Pt) (cs : List Pt) :
    IsBoxOf (mkBox zcta_id c cs) (c :: cs) := by
  refine ⟨?_, ?_, ?_, ?_, ?_⟩
  · intro p hp
    rcases List.mem_cons.mp hp with rfl | hp'
    · exact ⟨foldl_min_le_init _ _, foldl_max_init_le _ _,
        foldl_min_le_init _ _, foldl_max_init_le _ _⟩
    · exact ⟨foldl_min_le_mem _ _ _ (List.mem_map_of_mem _ hp'),
        foldl_max_mem_le _ _ _ (List.mem_map_of_mem _ hp'),
        foldl_min_le_mem _ _ _ (List.mem_map_of_mem _ hp'),
        foldl_max_mem_le _ _ _ (List.mem_map_of_mem _ hp')⟩
  · rcases foldl_min_mem (cs.map Prod.fst) c.1 with h | h
    · simp [mkBox, h]
    · simp only [List.map_cons, List.mem_cons]
      exact Or.inr (by simpa [mkBox] using h)
  · rcases foldl_max_mem (cs.map Prod.fst) c.1 with h | h
    · simp [mkBox, h]
    · simp only [List.map_cons, List.mem_cons]
      exact Or.inr (by simpa [mkBox] using h)
  · rcases foldl_min_mem (cs.map Prod.snd) c.2 with h | h
    · simp [mkBox, h]
    · simp only [List.map_cons, List.mem_cons]
      exact Or.inr (by simpa [mkBox] using h)
  · rcases foldl_max_mem (cs.map Prod.snd) c.2 with h | h
    · simp [mkBox, h]
    · simp only [List.map_cons, List.mem_cons]
      exact Or.inr (by simpa [mkBox] using h)

theorem processInteriors_allOk (self_digit_max zip_code_id : ℕ)
    (multi : Bool) (ext_zcta_id : ℕ) :
    ∀ (rings : List (List Pt)) (st : ExpSt),
      (∀ ring ∈ rings, ring ≠ []) →
      ∃ st' Lz Lp Lb,
        processInteriors oracAll self_digit_max zip_code_id multi
          ext_zcta_id rings st = .ok st' ∧
        st'.store.zips = st.store.zips ∧
        st'.store.zctas = st.store.zctas ++ Lz ∧
        st'.store.points = st.store.points ++ Lp ∧
        st'.store.boxes = st.store.boxes ++ Lb ∧
        st.store.nextZctaId ≤ st'.store.nextZctaId ∧
        (∀ z ∈ Lz, z.interior = true ∧ z.multi = multi ∧
          z.zip_code_id = zip_code_id ∧ st.store.nextZctaId ≤ z.zcta_id) ∧
        (∀ b ∈ Lb, b.zcta_id = ext_zcta_id) ∧
        (∀ p ∈ Lp, ∃ z ∈ Lz, p.zcta_id = z.zcta_id) ∧
        (Lp.map fun p => (p.zcta_point_lon, p.zcta_point_lat)) =
          (rings.map fun ring =>
            ring.map (roundPt self_digit_max)).flatten ∧
        List.Forall₂ IsBoxOf Lb
          (rings.map fun ring => ring.map (roundPt self_digit_max)) := by
  intro rings
  induction rings with
  | nil =>
      intro st _
      exact ⟨st, [], [], [], rfl, rfl, by simp, by simp, by simp,
        le_refl _, by simp, by simp, by simp, by simp, by simp⟩
  | cons ring rest ih =>
      intro st hne
      have hring : ring ≠ [] := hne ring (List.mem_cons_self _ _)
      have hL : ring.map (roundPt self_digit_max) ≠ [] := fun h =>
        hring (by simpa using h)
      obtain ⟨c, cs, hcs⟩ := List.exists_cons_of_ne_nil hL
      have hstep : processInteriors oracAll self_digit_max zip_code_id
          multi ext_zcta_id (ring :: rest) st =
          processInteriors oracAll self_digit_max zip_code_id multi
            ext_zcta_id rest
            ⟨{ st.store with
                zctas := st.store.zctas ++
                  [⟨st.store.nextZctaId, zip_code_id, true, multi⟩],
                points := st.store.points ++
                  (c :: cs).map fun p => ⟨st.store.nextZctaId, p.2, p.1⟩,
                boxes := st.store.boxes ++ [mkBox ext_zcta_id c cs],
                nextZctaId := st.store.nextZctaId + 1 },
              st.calls + 3⟩ := by
        simp only [processInteriors, addZctaOp, addAllZctaPointsOp,
          addZctaBoundaryOp, oracAll, if_true, hcs]
      obtain ⟨st', Lz', Lp', Lb', hrun, hzips, hzctas, hpts, hboxes,
        hnext, hLz, hLb, hLp, hseq, hfa⟩ :=
        ih _ (fun r hr => hne r (List.mem_cons_of_mem _ hr))
      rw [hstep]
      refine ⟨st', ⟨st.store.nextZctaId, zip_code_id, true, multi⟩ :: Lz',
        ((c :: cs).map fun p =>
          (⟨st.store.nextZctaId, p.2, p.1⟩ : PointRec)) ++ Lp',
        mkBox ext_zcta_id c cs :: Lb',
        hrun, by simpa using hzips, ?_, ?_, ?_, ?_, ?_, ?_, ?_, ?_, ?_⟩
      · rw [hzctas]; simp
      · rw [hpts]; simp
      · rw [hboxes]; simp
      · simp at hnext; omega
      · intro z hz
        rcases List.mem_cons.mp hz with rfl | hz'
        · exact ⟨rfl, rfl, rfl, le_refl _⟩
        · have := hLz z hz'
          simp only at this
          exact ⟨this.1, this.2.1, this.2.2.1, by omega⟩
      · intro b hb
        rcases List.mem_cons.mp hb with rfl | hb'
        · rfl
        · exact hLb b hb'
      · intro p hp
        rcases List.mem_append.mp hp with hp' | hp'
        · refine ⟨⟨st.store.nextZctaId, zip_code_id, true, multi⟩,
            List.mem_cons_self _ _, ?_⟩
          obtain ⟨q, _, rfl⟩ := List.mem_map.mp hp'
          rfl
        · obtain ⟨z, hzmem, hzeq⟩ := hLp p hp'
          exact ⟨z, List.mem_cons_of_mem _ hzmem, hzeq⟩
      · simp only [List.map_append, List.map_cons, List.flatten_cons, hcs,
          hseq]
        simp [List.map_map, Function.comp_def, Prod.mk.eta]
      · simp only [List.map_cons, hcs]
        exact List.Forall₂.cons (mkBox_isBoxOf ext_zcta_id c cs) hfa

theorem processPart_allOk (digit_max self_digit_max : ℕ)
    (simplifyFn : Poly → ℚ → Poly) (fuel point_max zip_code_id : ℕ)
    (multi : Bool) (poly q : Poly) (st : ExpSt)
    (hmin : minimize_poly simplifyFn fuel poly point_max = some q)
    (hext : q.exterior ≠ [])
    (hints : ∀ ring ∈ q.interiors, ring ≠ []) :
    ∃ st' ext_rec Lz Lp_ext Lp_int Lb,
      processPart oracAll digit_max self_digit_max simplifyFn fuel
        point_max zip_code_id multi poly st = some (.ok st') ∧
      ext_rec =
        (⟨st.store.nextZctaId, zip_code_id, false, multi⟩ : ZctaRec) ∧
      st'.store.zips = st.store.zips ∧
      st'.store.zctas = st.store.zctas ++ ext_rec :: Lz ∧
      (∀ z ∈ Lz, z.interior = true ∧ z.multi = multi ∧
        z.zip_code_id = zip_code_id ∧ z.zcta_id ≠ ext_rec.zcta_id) ∧
      st'.store.points = st.store.points ++ Lp_ext ++ Lp_int ∧
      (∀ p ∈ Lp_ext, p.zcta_id = ext_rec.zcta_id) ∧
      (∀ p ∈ Lp_int, ∃ z ∈ Lz, p.zcta_id = z.zcta_id) ∧
      st'.store.boxes = st.store.boxes ++ Lb ∧
      (∀ b ∈ Lb, b.zcta_id = ext_rec.zcta_id) ∧
      ((Lp_ext ++ Lp_int).map fun p =>
          (p.zcta_point_lon, p.zcta_point_lat)) =
        ((q.exterior.map (roundPt digit_max)) ::
          q.interiors.map fun ring =>
            ring.map (roundPt self_digit_max)).flatten ∧
      List.Forall₂ IsBoxOf Lb
        ((q.exterior.map (roundPt digit_max)) ::
          q.interiors.map fun ring =>
            ring.map (roundPt self_digit_max)) := by
  have hLext : q.exterior.map (roundPt digit_max) ≠ [] := fun h =>
    hext (by simpa using h)
  obtain ⟨c, cs, hcs⟩ := List.exists_cons_of_ne_nil hLext
  have hstep : processPart oracAll digit_max self_digit_max simplifyFn
      fuel point_max zip_code_id multi poly st =
      some (processInteriors oracAll self_digit_max zip_code_id multi
        st.store.nextZctaId q.interiors
        ⟨{ st.store with
            zctas := st.store.zctas ++
              [⟨st.store.nextZctaId, zip_code_id, false, multi⟩],
            points := st.store.points ++
              (c :: cs).map fun p => ⟨st.store.nextZctaId, p.2, p.1⟩,
            boxes := st.store.boxes ++
              [mkBox st.store.nextZctaId c cs],
            nextZctaId := st.store.nextZctaId + 1 },
          st.calls + 3⟩) := by
    simp only [processPart, hmin, addZctaOp, addAllZctaPointsOp,
      addZctaBoundaryOp, oracAll, if_true, hcs]
  obtain ⟨st', Lz', Lp', Lb', hrun, hzips, hzctas, hpts, hboxes, hnext,
    hLz, hLb, hLp, hseq, hfa⟩ :=
    processInteriors_allOk self_digit_max zip_code_id multi
      st.store.nextZctaId q.interiors _ hints
  refine ⟨st', ⟨st.store.nextZctaId, zip_code_id, false, multi⟩, Lz',
    (c :: cs).map fun p => ⟨st.store.nextZctaId, p.2, p.1⟩, Lp',
    mkBox st.store.nextZctaId c cs :: Lb',
    by rw [hstep, hrun], rfl, by simpa using hzips, ?_, ?_, ?_, ?_, ?_,
    ?_, ?_, ?_, ?_⟩
  · rw [hzctas]; simp
  · intro z hz
    have h2 := hLz z hz
    refine ⟨h2.1, h2.2.1, h2.2.2.1, ?_⟩
    have h3 : st.store.nextZctaId + 1 ≤ z.zcta_id := by
      simpa using h2.2.2.2
    show z.zcta_id ≠ st.store.nextZctaId
    omega
  · simp [hpts]
  · intro p hp
    obtain ⟨q', _, rfl⟩ := List.mem_map.mp hp
    rfl
  · exact hLp
  · rw [hboxes]; simp
  · intro b hb
    rcases List.mem_cons.mp hb with rfl | hb'
    · rfl
    · exact hLb b hb'
  · simp only [List.map_append, List.flatten_cons, hcs, hseq]
    simp [List.map_map, Function.comp_def, Prod.mk.eta]
  · simp only [hcs]
    exact List.Forall₂.cons (mkBox_isBoxOf st.store.nextZctaId c cs) hfa

/-- C4: for every interior ring (hole) of a successfully simplified
polygon part, the bounding box computed from the hole's rounded points is
persisted under the EXTERIOR TabulationArea's identifier (the box list
`Lb` — the exterior's box followed by one box per hole — carries the
exterior record's id throughout), not under the interior identifier just
created for the hole, while the hole's BoundaryPoints are persisted under
that interior TabulationArea's identifier, which differs from the
exterior's. -/
theorem interior_box_under_exterior_id (digit_max self_digit_max : ℕ)
    (simplifyFn : Poly → ℚ → Poly) (fuel point_max zip_code_id : ℕ)
    (multi : Bool) (poly q : Poly) (st : ExpSt)
    (hmin : minimize_poly simplifyFn fuel poly point_max = some q)
    (hext : q.exterior ≠ [])
    (hints : ∀ ring ∈ q.interiors, ring ≠ []) :
    ∃ st' ext_rec Lz Lp_ext Lp_int Lb,
      processPart oracAll digit_max self_digit_max simplifyFn fuel
        point_max zip_code_id multi poly st = some (.ok st') ∧
      st'.store.zctas = st.store.zctas ++ ext_rec :: Lz ∧
      ext_rec.interior = false ∧
      (∀ z ∈ Lz, z.interior = true ∧ z.zcta_id ≠ ext_rec.zcta_id) ∧
      st'.store.points = st.store.points ++ Lp_ext ++ Lp_int ∧
      (∀ p ∈ Lp_ext, p.zcta_id = ext_rec.zcta_id) ∧
      (∀ p ∈ Lp_int, ∃ z ∈ Lz, z.interior = true ∧
        p.zcta_id = z.zcta_id ∧ p.zcta_id ≠ ext_rec.zcta_id) ∧
      st'.store.boxes = st.store.boxes ++ Lb ∧
      Lb.length = 1 + q.interiors.length ∧
      (∀ b ∈ Lb, b.zcta_id = ext_rec.zcta_id) := by
  obtain ⟨st', ext_rec, Lz, Lp_ext, Lp_int, Lb, hrun, hrec, _, hzctas,
    hLz, hpts, hLpe, hLpi, hboxes, hLb, _, hfa⟩ :=
    processPart_allOk digit_max self_digit_max simplifyFn fuel point_max
      zip_code_id multi poly q st hmin hext hints
  refine ⟨st', ext_rec, Lz, Lp_ext, Lp_int, Lb, hrun, hzctas,
    by rw [hrec], ?_, hpts, hLpe, ?_, hboxes, ?_, hLb⟩
  · intro z hz
    exact ⟨(hLz z hz).1, (hLz z hz).2.2.2⟩
  · intro p hp
    obtain ⟨z, hzmem, hzeq⟩ := hLpi p hp
    exact ⟨z, hzmem, (hLz z hzmem).1, hzeq,
      hzeq ▸ (hLz z hzmem).2.2.2⟩
  · have := List.Forall₂.length_eq hfa
    simp at this
    omega

/-- Witness for C4: a square with one square hole, `digit_max = 0` for
the exterior and `self.digit_max = 0`, a fault-free store. -/
theorem interior_box_under_exterior_id_witness :
    ∃ st' ext_rec Lz Lp_ext Lp_int Lb,
      processPart oracAll 0 0 (fun p _ => p) 0 100 0 false
        ⟨[((0 : ℚ), (0 : ℚ)), (3, 0), (3, 3), (0, 3), (0, 0)],
          [[(1, 1), (2, 1), (2, 2), (1, 1)]]⟩ ⟨Store.empty, 0⟩ =
        some (.ok st') ∧
      st'.store.zctas = Store.empty.zctas ++ ext_rec :: Lz ∧
      ext_rec.interior = false ∧
      (∀ z ∈ Lz, z.interior = true ∧ z.zcta_id ≠ ext_rec.zcta_id) ∧
      st'.store.points = Store.empty.points ++ Lp_ext ++ Lp_int ∧
      (∀ p ∈ Lp_ext, p.zcta_id = ext_rec.zcta_id) ∧
      (∀ p ∈ Lp_int, ∃ z ∈ Lz, z.interior = true ∧
        p.zcta_id = z.zcta_id ∧ p.zcta_id ≠ ext_rec.zcta_id) ∧
      st'.store.boxes = Store.empty.boxes ++ Lb ∧
      Lb.length = 1 +
        (Poly.mk [((0 : ℚ), (0 : ℚ)), (3, 0), (3, 3), (0, 3), (0, 0)]
          [[(1, 1), (2, 1), (2, 2), (1, 1)]]).interiors.length ∧
      (∀ b ∈ Lb, b.zcta_id = ext_rec.zcta_id) :=
  interior_box_under_exterior_id 0 0 (fun p _ => p) 0 100 0 false
    ⟨[(0, 0), (3, 0), (3, 3), (0, 3), (0, 0)],
      [[(1, 1), (2, 1), (2, 2), (1, 1)]]⟩
    ⟨[(0, 0), (3, 0), (3, 3), (0, 3), (0, 0)],
      [[(1, 1), (2, 1), (2, 2), (1, 1)]]⟩ ⟨Store.empty, 0⟩
    (by simp [minimize_poly, minimizePolyAux]) (by simp) (by simp)

/-- C7 (amended): interior rings are rounded with the instance attribute
`self.digit_max` while exterior rings, the box source points and the
centroid use the `digit_max` argument, and the two bounds can differ on
real call paths (see the counterexample).  Whenever the supplied
`digit_max` equals `self.digit_max` — the single bound `d` here — every
coordinate persisted for a part is rounded to `d` before storage, and
every stored bounding box's extrema are the minima/maxima, both bounding
and attained, of the rounded point list persisted for the corresponding
ring (with the code's axis-label swap: the `min_lat`/`max_lat` columns
hold the longitude extrema and `min_lon`/`max_lon` the latitude
extrema). -/
theorem uniform_rounding_and_tight_boxes (d : ℕ)
    (simplifyFn : Poly → ℚ → Poly) (fuel point_max zip_code_id : ℕ)
    (multi : Bool) (poly q : Poly) (st : ExpSt)
    (hmin : minimize_poly simplifyFn fuel poly point_max = some q)
    (hext : q.exterior ≠ [])
    (hints : ∀ ring ∈ q.interiors, ring ≠ []) :
    ∃ st' Lp Lb,
      processPart oracAll d d simplifyFn fuel point_max zip_code_id
        multi poly st = some (.ok st') ∧
      st'.store.points = st.store.points ++ Lp ∧
      st'.store.boxes = st.store.boxes ++ Lb ∧
      (Lp.map fun p => (p.zcta_point_lon, p.zcta_point_lat)) =
        ((q.exterior :: q.interiors).map fun ring =>
          ring.map (roundPt d)).flatten ∧
      List.Forall₂ IsBoxOf Lb
        ((q.exterior :: q.interiors).map fun ring =>
          ring.map (roundPt d)) := by
  obtain ⟨st', ext_rec, Lz, Lp_ext, Lp_int, Lb, hrun, _, _, _, _, hpts,
    _, _, hboxes, _, hseq, hfa⟩ :=
    processPart_allOk d d simplifyFn fuel point_max zip_code_id multi
      poly q st hmin hext hints
  refine ⟨st', Lp_ext ++ Lp_int, Lb, hrun, by simp [hpts], hboxes,
    ?_, ?_⟩
  · simpa using hseq
  · simpa using hfa

/-- Witness for C7's amended theorem: a triangle with one hole at digit
bound 1. -/
theorem uniform_rounding_and_tight_boxes_witness :
    ∃ st' Lp Lb,
      processPart oracAll 1 1 (fun p _ => p) 0 100 0 false
        ⟨[((0 : ℚ), (0 : ℚ)), (1, 0), (0, 1), (0, 0)], [[(1/5, 1/5)]]⟩
        ⟨Store.empty, 0⟩ = some (.ok st') ∧
      st'.store.points = Store.empty.points ++ Lp ∧
      st'.store.boxes = Store.empty.boxes ++ Lb ∧
      (Lp.map fun p => (p.zcta_point_lon, p.zcta_point_lat)) =
        (((Poly.mk [((0 : ℚ), (0 : ℚ)), (1, 0), (0, 1), (0, 0)]
            [[(1/5, 1/5)]]).exterior ::
          (Poly.mk [((0 : ℚ), (0 : ℚ)), (1, 0), (0, 1), (0, 0)]
            [[(1/5, 1/5)]]).interiors).map fun ring =>
          ring.map (roundPt 1)).flatten ∧
      List.Forall₂ IsBoxOf Lb
        (((Poly.mk [((0 : ℚ), (0 : ℚ)), (1, 0), (0, 1), (0, 0)]
            [[(1/5, 1/5)]]).exterior ::
          (Poly.mk [((0 : ℚ), (0 : ℚ)), (1, 0), (0, 1), (0, 0)]
            [[(1/5, 1/5)]]).interiors).map fun ring =>
          ring.map (roundPt 1)) :=
  uniform_rounding_and_tight_boxes 1 (fun p _ => p) 0 100 0 false
    ⟨[(0, 0), (1, 0), (0, 1), (0, 0)], [[(1/5, 1/5)]]⟩
    ⟨[(0, 0), (1, 0), (0, 1), (0, 0)], [[(1/5, 1/5)]]⟩
    ⟨Store.empty, 0⟩ (by simp [minimize_poly, minimizePolyAux])
    (by simp) (by simp)

theorem addAllZctaPointsOp_zctas (orac : Oracle) (zcta_id : ℕ)
    (pts : List Pt) (st : ExpSt) :
    (addAllZctaPointsOp orac zcta_id pts st).store.zctas =
      st.store.zctas := by
  unfold addAllZctaPointsOp
  split <;> rfl

theorem addZctaBoundaryOp_zctas (orac : Oracle) (box : BoxRec)
    (st : ExpSt) :
    (addZctaBoundaryOp orac box st).store.zctas = st.store.zctas := by
  unfold addZctaBoundaryOp
  split <;> rfl

theorem processInteriors_zctas_multi (orac : Oracle)
    (self_digit_max zip_code_id : ℕ) (multi : Bool) (ext_zcta_id : ℕ) :
    ∀ (rings : List (List Pt)) (st : ExpSt),
      ∃ L, (exceptState (processInteriors orac self_digit_max zip_code_id
          multi ext_zcta_id rings st)).store.zctas =
        st.store.zctas ++ L ∧ ∀ z ∈ L, z.multi = multi := by
  intro rings
  induction rings with
  | nil => intro st; exact ⟨[], by simp [processInteriors, exceptState],
      by simp⟩
  | cons ring rest ih =>
      intro st
      cases ho : orac st.calls with
      | false =>
          refine ⟨[], ?_, by simp⟩
          simp [processInteriors, addZctaOp, ho, exceptState]
      | true =>
          cases hrc : ring.map (roundPt self_digit_max) with
          | nil =>
              refine ⟨[⟨st.store.nextZctaId, zip_code_id, true, multi⟩],
                ?_, by simp⟩
              simp [processInteriors, addZctaOp, ho, hrc, exceptState,
                addAllZctaPointsOp_zctas]
          | cons c cs =>
              obtain ⟨L', hL', hmultiL'⟩ := ih
                (addZctaBoundaryOp orac (mkBox ext_zcta_id c cs)
                  (addAllZctaPointsOp orac st.store.nextZctaId (c :: cs)
                    (⟨{ st.store with
                        zctas := st.store.zctas ++
                          [⟨st.store.nextZctaId, zip_code_id, true,
                            multi⟩],
                        nextZctaId := st.store.nextZctaId + 1 },
                      st.calls + 1⟩ : ExpSt)))
              refine ⟨⟨st.store.nextZctaId, zip_code_id, true, multi⟩ ::
                L', ?_, ?_⟩
              · have hstep : processInteriors orac self_digit_max
                    zip_code_id multi ext_zcta_id (ring :: rest) st =
                    processInteriors orac self_digit_max zip_code_id multi
                      ext_zcta_id rest
                      (addZctaBoundaryOp orac (mkBox ext_zcta_id c cs)
                        (addAllZctaPointsOp orac st.store.nextZctaId
                          (c :: cs)
                          (⟨{ st.store with
                              zctas := st.store.zctas ++
                                [⟨st.store.nextZctaId, zip_code_id, true,
                                  multi⟩],
                              nextZctaId := st.store.nextZctaId + 1 },
                            st.calls + 1⟩ : ExpSt))) := by
                  simp only [processInteriors, addZctaOp, ho, if_true,
                    hrc]
                rw [hstep, hL', addZctaBoundaryOp_zctas,
                  addAllZctaPointsOp_zctas]
                simp
              · intro z hz
                rcases List.mem_cons.mp hz with rfl | hz'
                · rfl
                · exact hmultiL' z hz'

theorem processPart_zctas_multi (orac : Oracle)
    (digit_max self_digit_max : ℕ) (simplifyFn : Poly → ℚ → Poly)
    (fuel point_max zip_code_id : ℕ) (multi : Bool) (poly : Poly)
    (st : ExpSt) (e : Except ExpSt ExpSt)
    (h : processPart orac digit_max self_digit_max simplifyFn fuel
      point_max zip_code_id multi poly st = some e) :
    ∃ L, (exceptState e).store.zctas = st.store.zctas ++ L ∧
      ∀ z ∈ L, z.multi = multi := by
  unfold processPart at h
  cases hmin : minimize_poly simplifyFn fuel poly point_max with
  | none => rw [hmin] at h; exact absurd h (by simp)
  | some q =>
      rw [hmin] at h
      cases ho : orac st.calls with
      | false =>
          simp only [addZctaOp, ho, Bool.false_eq_true, if_false,
            Option.some.injEq] at h
          exact ⟨[], by simp [← h, exceptState], by simp⟩
      | true =>
          simp only [addZctaOp, ho, if_true, Option.some.injEq] at h
          cases hrc : q.exterior.map (roundPt digit_max) with
          | nil =>
              rw [hrc] at h
              simp only [Option.some.injEq] at h
              refine ⟨[⟨st.store.nextZctaId, zip_code_id, false, multi⟩],
                ?_, by simp⟩
              rw [← h]
              simp [exceptState, addAllZctaPointsOp_zctas]
          | cons c cs =>
              rw [hrc] at h
              simp only [Option.some.injEq] at h
              obtain ⟨L', hL', hmultiL'⟩ := processInteriors_zctas_multi
                orac self_digit_max zip_code_id multi st.store.nextZctaId
                q.interiors
                (addZctaBoundaryOp orac (mkBox st.store.nextZctaId c cs)
                  (addAllZctaPointsOp orac st.store.nextZctaId (c :: cs)
                    (⟨{ st.store with
                        zctas := st.store.zctas ++
                          [⟨st.store.nextZctaId, zip_code_id, false,
                            multi⟩],
                        nextZctaId := st.store.nextZctaId + 1 },
                      st.calls + 1⟩ : ExpSt)))
              refine ⟨⟨st.store.nextZctaId, zip_code_id, false, multi⟩ ::
                L', ?_, ?_⟩
              · rw [← h, hL', addZctaBoundaryOp_zctas,
                  addAllZctaPointsOp_zctas]
                simp
              · intro z hz
                rcases List.mem_cons.mp hz with rfl | hz'
                · rfl
                · exact hmultiL' z hz'

theorem processParts_zctas_multi (orac : Oracle)
    (digit_max self_digit_max : ℕ) (simplifyFn : Poly → ℚ → Poly)
    (fuel point_max zip_code_id : ℕ) (multi : Bool) :
    ∀ (parts : List Poly) (st : ExpSt) (e : Except ExpSt ExpSt),
      processParts orac digit_max self_digit_max simplifyFn fuel
        point_max zip_code_id multi parts st = some e →
      ∃ L, (exceptState e).store.zctas = st.store.zctas ++ L ∧
        ∀ z ∈ L, z.multi = multi := by
  intro parts
  induction parts with
  | nil =>
      intro st e h
      simp only [processParts, Option.some.injEq] at h
      exact ⟨[], by simp [← h, exceptState], by simp⟩
  | cons poly rest ih =>
      intro st e h
      unfold processParts at h
      cases hp : processPart orac digit_max self_digit_max simplifyFn
        fuel point_max zip_code_id multi poly st with
      | none => rw [hp] at h; exact absurd h (by simp)
      | some e₁ =>
          rw [hp] at h
          cases e₁ with
          | error st₁ =>
              simp only [Option.some.injEq] at h
              obtain ⟨L, hL, hmulti⟩ := processPart_zctas_multi orac
                digit_max self_digit_max simplifyFn fuel point_max
                zip_code_id multi poly st _ hp
              exact ⟨L, by rw [← h]; exact hL, hmulti⟩
          | ok st₁ =>
              obtain ⟨L₁, hL₁, hmulti₁⟩ := processPart_zctas_multi orac
                digit_max self_digit_max simplifyFn fuel point_max
                zip_code_id multi poly st _ hp
              obtain ⟨L₂, hL₂, hmulti₂⟩ := ih st₁ e h
              refine ⟨L₁ ++ L₂, ?_, ?_⟩
              · rw [hL₂]
                simp only [exceptState] at hL₁
                rw [hL₁, List.append_assoc]
              · intro z hz
                rcases List.mem_append.mp hz with hz' | hz'
                · exact hmulti₁ z hz'
                · exact hmulti₂ z hz'

/-- C3 (amended): every TabulationArea stored while exporting a feature
carries `multi = isinstance(geometry, MultiPolygon)` — the flag records
the geometry's TYPE, not whether the part count exceeds one; in
particular a `MultiPolygon` containing exactly one part yields
`multi = true` (see the counterexample). -/
theorem exportFeature_multi_flag (orac : Oracle)
    (digit_max self_digit_max : ℕ) (simplifyFn : Poly → ℚ → Poly)
    (fuel point_max : ℕ) (row : Feature) (st st' : ExpSt)
    (h : exportFeature orac digit_max self_digit_max simplifyFn fuel
      point_max row st = some st') :
    ∃ L, st'.store.zctas = st.store.zctas ++ L ∧
      ∀ z ∈ L, z.multi = row.geometry.isMulti := by
  unfold exportFeature at h
  cases ho : orac st.calls with
  | false =>
      simp only [addZipOp, ho, Bool.false_eq_true, if_false,
        Option.some.injEq] at h
      exact ⟨[], by simp [← h], by simp⟩
  | true =>
      simp only [addZipOp, ho, if_true] at h
      cases hps : processParts orac digit_max self_digit_max simplifyFn
        fuel point_max st.store.nextZipId row.geometry.isMulti
        row.geometry.parts
        (⟨{ st.store with
            zips := st.store.zips ++
              [⟨st.store.nextZipId, row.zip_code,
                roundTo digit_max row.intpt_lat,
                roundTo digit_max row.intpt_lon⟩],
            nextZipId := st.store.nextZipId + 1 }, st.calls + 1⟩ :
          ExpSt) with
      | none => rw [hps] at h; exact absurd h (by simp)
      | some e =>
          rw [hps] at h
          obtain ⟨L, hL, hmulti⟩ := processParts_zctas_multi orac
            digit_max self_digit_max simplifyFn fuel point_max
            st.store.nextZipId row.geometry.isMulti row.geometry.parts _
            e hps
          refine ⟨L, ?_, hmulti⟩
          cases e with
          | ok st₁ =>
              simp only [Option.some.injEq] at h
              rw [← h]
              simpa [exceptState] using hL
          | error st₁ =>
              simp only [Option.some.injEq] at h
              rw [← h]
              simpa [exceptState] using hL

/-- C3's counterexample: a `MultiPolygon` geometry containing exactly
one part.  The claim says the stored `multi` flag is false for it; the
run stores a TabulationArea with `multi = true` (fourth field of the
stored `ZctaRec`), because the code sets the flag by
`isinstance(zip_geometry, MultiPolygon)`, not by the part count. -/
theorem multi_flag_counterexample :
    exportFeature oracAll 0 0 (fun p _ => p) 0 100
        ⟨"00000", 0, 0, .multiPolygon [⟨[((0 : ℚ), (0 : ℚ))], []⟩]⟩
        ⟨Store.empty, 0⟩ =
      some ⟨⟨[⟨0, "00000", 0, 0⟩], [⟨0, 0, false, true⟩], [⟨0, 0, 0⟩],
        [⟨0, 0, 0, 0, 0⟩], 1, 1⟩, 4⟩ ∧
      (Geometry.multiPolygon [⟨[((0 : ℚ), (0 : ℚ))], []⟩]).parts.length =
        1 := by
  constructor
  · norm_num [exportFeature, addZipOp, oracAll, Geometry.parts,
      Geometry.isMulti, processParts, processPart, minimize_poly,
      minimizePolyAux, addZctaOp, addAllZctaPointsOp, addZctaBoundaryOp,
      processInteriors, mkBox, roundPt, roundTo, round_eq, Store.empty]
  · simp [Geometry.parts]

/-- Witness for C3's amended theorem: a single-`Polygon` feature, whose
one stored TabulationArea carries `multi = false = isMulti`. -/
theorem exportFeature_multi_flag_witness :
    ∃ L, (⟨⟨[⟨0, "00000", 0, 0⟩], [⟨0, 0, false, false⟩], [⟨0, 0, 0⟩],
        [⟨0, 0, 0, 0, 0⟩], 1, 1⟩, 4⟩ : ExpSt).store.zctas =
      (⟨Store.empty, 0⟩ : ExpSt).store.zctas ++ L ∧
      ∀ z ∈ L, z.multi =
        (Geometry.polygon ⟨[((0 : ℚ), (0 : ℚ))], []⟩).isMulti :=
  exportFeature_multi_flag oracAll 0 0 (fun p _ => p) 0 100
    ⟨"00000", 0, 0, .polygon ⟨[(0, 0)], []⟩⟩ ⟨Store.empty, 0⟩
    ⟨⟨[⟨0, "00000", 0, 0⟩], [⟨0, 0, false, false⟩], [⟨0, 0, 0⟩],
      [⟨0, 0, 0, 0, 0⟩], 1, 1⟩, 4⟩
    (by norm_num [exportFeature, addZipOp, oracAll, Geometry.parts,
      Geometry.isMulti, processParts, processPart, minimize_poly,
      minimizePolyAux, addZctaOp, addAllZctaPointsOp, addZctaBoundaryOp,
      processInteriors, mkBox, roundPt, roundTo, round_eq, Store.empty])

/-- C7's counterexample: `export_shapedf_to_db` is called with
`digit_max = 0` while the instance attribute `self.digit_max` is `1`.
Such mismatches are reachable: `core.py` forwards its caller's
`digit_max` argument to `export_shapedf_to_db` unchanged, while
`__init__` separately defaulted `self.digit_max`.  The interior ring's
raw coordinate `1/5` is persisted as `1/5` (rounded with
`self.digit_max = 1` by line 599), not as `round(1/5, 0) = 0` — so not
every persisted coordinate is rounded to the `digit_max` supplied to
the export. -/
theorem rounding_digit_counterexample :
    exportFeature oracAll 0 1 (fun p _ => p) 0 100
        ⟨"00000", 0, 0, .polygon ⟨[((0 : ℚ), (0 : ℚ))], [[(1/5, 0)]]⟩⟩
        ⟨Store.empty, 0⟩ =
      some ⟨⟨[⟨0, "00000", 0, 0⟩],
        [⟨0, 0, false, false⟩, ⟨1, 0, true, false⟩],
        [⟨0, 0, 0⟩, ⟨1, 0, 1/5⟩],
        [⟨0, 0, 0, 0, 0⟩, ⟨0, 1/5, 1/5, 0, 0⟩], 1, 2⟩, 7⟩ ∧
      roundTo 0 (1/5) = 0 ∧ ((1 : ℚ)/5) ≠ 0 := by
  refine ⟨?_, ?_, by norm_num⟩
  · norm_num [exportFeature, addZipOp, oracAll, Geometry.parts,
      Geometry.isMulti, processParts, processPart, minimize_poly,
      minimizePolyAux, addZctaOp, addAllZctaPointsOp, addZctaBoundaryOp,
      processInteriors, mkBox, roundPt, roundTo, round_eq, Store.empty]
  · norm_num [roundTo, round_eq]

/-- C2's counterexample: a three-part multipolygon whose part-2
TabulationArea write (the run's write call number 4: zip = 0, part-1
zcta/points/box = 1, 2, 3) fails.  `add_zcta` returns `None`, the
subsequent `zcta_obj.zcta_id` raises, and the per-feature handler catches
the exception OUTSIDE the parts loop — so part 3 is never processed: the
final store holds exactly one TabulationArea, one point row and one box
(part 1's), not the records of parts 1 AND 3 that the claim requires. -/
theorem partial_failure_counterexample :
    exportFeature (fun n => n != 4) 0 0 (fun p _ => p) 0 100
        ⟨"00000", 0, 0, .multiPolygon
          [⟨[((0 : ℚ), (0 : ℚ))], []⟩, ⟨[((0 : ℚ), (0 : ℚ))], []⟩,
            ⟨[((0 : ℚ), (0 : ℚ))], []⟩]⟩
        ⟨Store.empty, 0⟩ =
      some ⟨⟨[⟨0, "00000", 0, 0⟩], [⟨0, 0, false, true⟩], [⟨0, 0, 0⟩],
        [⟨0, 0, 0, 0, 0⟩], 1, 1⟩, 5⟩ ∧
      (exportFeature (fun n => n != 4) 0 0 (fun p _ => p) 0 100
        ⟨"00000", 0, 0, .multiPolygon
          [⟨[((0 : ℚ), (0 : ℚ))], []⟩, ⟨[((0 : ℚ), (0 : ℚ))], []⟩,
            ⟨[((0 : ℚ), (0 : ℚ))], []⟩]⟩
        ⟨Store.empty, 0⟩).map
          (fun s => (s.store.zctas.length, s.store.points.length,
            s.store.boxes.length)) = some (1, 1, 1) := by
  refine ⟨?_, ?_⟩ <;>
    norm_num [exportFeature, addZipOp, oracAll, Geometry.parts,
      Geometry.isMulti, processParts, processPart, minimize_poly,
      minimizePolyAux, addZctaOp, addAllZctaPointsOp, addZctaBoundaryOp,
      processInteriors, mkBox, roundPt, roundTo, round_eq, Store.empty]

/-- C2 (amended): when the part-2 TabulationArea write of a three-part
multipolygon fails, the records committed for parts BEFORE the failing
part remain in the store, but the failing part and every LATER part are
skipped: the raised `AttributeError` aborts the whole parts loop (the
`try` is per feature, not per part), so after the run the store holds
exactly part 1's TabulationArea, its boundary points and one bounding
box — part 3's records are absent. -/
theorem partial_failure_aborts_loop (digit_max self_digit_max : ℕ)
    (simplifyFn : Poly → ℚ → Poly) (fuel point_max : ℕ)
    (zip_code : String) (lat lon : ℚ) (p1 p2 p3 q1 q2 : Poly)
    (hq1 : minimize_poly simplifyFn fuel p1 point_max = some q1)
    (hq2 : minimize_poly simplifyFn fuel p2 point_max = some q2)
    (hext : q1.exterior ≠ []) (hint : q1.interiors = []) :
    ∃ st', exportFeature (fun n => n != 4) digit_max self_digit_max
        simplifyFn fuel point_max
        ⟨zip_code, lat, lon, .multiPolygon [p1, p2, p3]⟩
        ⟨Store.empty, 0⟩ = some st' ∧
      st'.store.zips = [⟨0, zip_code, roundTo digit_max lat,
        roundTo digit_max lon⟩] ∧
      st'.store.zctas = [⟨0, 0, false, true⟩] ∧
      st'.store.points = (q1.exterior.map (roundPt digit_max)).map
        (fun p => ⟨0, p.2, p.1⟩) ∧
      st'.store.boxes.length = 1 := by
  cases hc : q1.exterior with
  | nil => exact absurd hc hext
  | cons c cs =>
      refine ⟨⟨⟨[⟨0, zip_code, roundTo digit_max lat,
          roundTo digit_max lon⟩], [⟨0, 0, false, true⟩],
          ((c :: cs).map (roundPt digit_max)).map fun p => ⟨0, p.2, p.1⟩,
          [mkBox 0 (roundPt digit_max c)
            (cs.map (roundPt digit_max))], 1, 1⟩, 5⟩,
        ?_, rfl, rfl, rfl, rfl⟩
      norm_num [exportFeature, addZipOp, Geometry.parts,
        Geometry.isMulti, processParts, processPart, hq1, hq2, hint, hc,
        addZctaOp, addAllZctaPointsOp, addZctaBoundaryOp,
        processInteriors, Store.empty]

/-- Witness for C2's amended theorem: three concrete one-vertex parts
(already under the vertex bound, so `minimize_poly` returns them
unchanged with zero fuel). -/
theorem partial_failure_aborts_loop_witness :
    ∃ st', exportFeature (fun n => n != 4) 0 0 (fun p _ => p) 0 100
        ⟨"00000", 0, 0, .multiPolygon
          [⟨[((0 : ℚ), (0 : ℚ))], []⟩, ⟨[((1 : ℚ), (1 : ℚ))], []⟩,
            ⟨[((2 : ℚ), (2 : ℚ))], []⟩]⟩
        ⟨Store.empty, 0⟩ = some st' ∧
      st'.store.zips = [⟨0, "00000", roundTo 0 0, roundTo 0 0⟩] ∧
      st'.store.zctas = [⟨0, 0, false, true⟩] ∧
      st'.store.points = ((Poly.mk [((0 : ℚ), (0 : ℚ))]
        []).exterior.map (roundPt 0)).map (fun p => ⟨0, p.2, p.1⟩) ∧
      st'.store.boxes.length = 1 :=
  partial_failure_aborts_loop 0 0 (fun p _ => p) 0 100 "00000" 0 0
    ⟨[(0, 0)], []⟩ ⟨[(1, 1)], []⟩ ⟨[(2, 2)], []⟩
    ⟨[(0, 0)], []⟩ ⟨[(1, 1)], []⟩
    (by simp [minimize_poly, minimizePolyAux])
    (by simp [minimize_poly, minimizePolyAux]) (by simp) rfl

theorem addLoop_ok (failAt : Option ℕ) (zcta_id : ℕ) :
    ∀ (pts : List Pt) (k : ℕ) (session s : DbSession),
      addLoop failAt zcta_id pts k session = .ok s →
      s.staged = session.staged ++
        pts.map fun p => ⟨zcta_id, p.2, p.1⟩ := by
  intro pts
  induction pts with
  | nil =>
      intro k session s h
      simp only [addLoop, Except.ok.injEq] at h
      simp [← h]
  | cons p rest ih =>
      intro k session s h
      obtain ⟨lon, lat⟩ := p
      by_cases hf : failAt = some k
      · simp [addLoop, hf] at h
      · simp only [addLoop, if_neg hf] at h
        have := ih (k + 1) ⟨session.staged ++ [⟨zcta_id, lat, lon⟩]⟩ s h
        simp [this]
/-- C9: `add_all_zcta_points` is atomic: when it returns `True` exactly
one `ZCTAPoint` row per input tuple was committed, in input order, the
first tuple component stored as longitude and the second as latitude;
when any exception was raised the transaction was rolled back, no point
of the call is persisted and the method returns `False` — exceptions
never propagate (the model is a total function returning the store and
the `bool`). -/
theorem add_all_zcta_points_atomic (failAt : Option ℕ) (zcta_id : ℕ)
    (zcta_points : List Pt) (db : Store) :
    ((add_all_zcta_points failAt zcta_id zcta_points db).2 = true →
      (add_all_zcta_points failAt zcta_id zcta_points db).1 =
        { db with points := db.points ++
            zcta_points.map fun p => ⟨zcta_id, p.2, p.1⟩ }) ∧
    ((add_all_zcta_points failAt zcta_id zcta_points db).2 = false →
      (add_all_zcta_points failAt zcta_id zcta_points db).1 = db) := by
  unfold add_all_zcta_points
  cases h : addLoop failAt zcta_id zcta_points 0 ⟨[]⟩ with
  | error s => exact ⟨by simp, by simp⟩
  | ok s =>
      have hs := addLoop_ok failAt zcta_id zcta_points 0 ⟨[]⟩ s h
      simp only [List.nil_append] at hs
      by_cases hf : failAt = some zcta_points.length
      · exact ⟨by simp [hf], by simp [hf]⟩
      · exact ⟨fun _ => by simp [hf, hs], by simp [hf]⟩

/-- Witness for C9: a fault-free call commits both points in order with
`(lon, lat)` stored as such, and a call whose first `session.add` raises
leaves the store unchanged and returns `False`. -/
theorem add_all_zcta_points_atomic_witness :
    (add_all_zcta_points none 7 [(1, 2), (3, 4)] Store.empty).1 =
        { Store.empty with points := Store.empty.points ++
            [((1 : ℚ), (2 : ℚ)), (3, 4)].map fun p => ⟨7, p.2, p.1⟩ } ∧
      (add_all_zcta_points (some 0) 7 [(1, 2), (3, 4)] Store.empty).1 =
        Store.empty :=
  ⟨(add_all_zcta_points_atomic none 7 [(1, 2), (3, 4)] Store.empty).1
      (by simp [add_all_zcta_points, addLoop]),
   (add_all_zcta_points_atomic (some 0) 7 [(1, 2), (3, 4)]
      Store.empty).2 (by simp [add_all_zcta_points, addLoop])⟩

/-- C6 (the code as it stands): on an empty feature sequence
`get_df_from_shapefile` returns the Python literal `False`, and
`export`'s test `df is not None and not df.empty` then raises
`AttributeError` on the `bool` — `export` never returns `False`.  The
claim (and the code's own intent, `return False` on "No data to
export.") says it should return `False`. -/
theorem export_empty_input_raises (orac : Oracle)
    (digit_max self_digit_max : ℕ) (simplifyFn : Poly → ℚ → Poly)
    (fuel point_max : ℕ) :
    ShapeFileToDB.export orac digit_max self_digit_max simplifyFn fuel
      point_max [] = some (.error .attributeError) := by
  simp [ShapeFileToDB.export, get_df_from_shapefile]

end Shapefile2DB
